import Mathlib

/-!
Verification of the Postman-collection → Dart/dio converter (`converter.py`).

The Python source is shallowly embedded below.  Characters are classified by
their ASCII code points (the converter only ever manipulates ASCII template
text); Python string operations (`str.lower`, `str.title`, `str.split`,
`str.replace`, `str.join`, regular-expression tests used by the converter)
are translated into executable Lean functions over `List Char` / `String`.
`json.loads` is a standard-library black box and is passed in as an explicit
`loads : String → Option PyJson` argument (`none` models a JSON decode
error).  Python exceptions are modelled with `Except String`, carrying the
exception name; text printed to stdout is collected in a `List String`.
-/

/-! ## ASCII character helpers -/

def isAsciiUpper (c : Char) : Bool := 65 ≤ c.toNat && c.toNat ≤ 90

def isAsciiLower (c : Char) : Bool := 97 ≤ c.toNat && c.toNat ≤ 122

def isAsciiDigit (c : Char) : Bool := 48 ≤ c.toNat && c.toNat ≤ 57

def isAsciiAlpha (c : Char) : Bool := isAsciiUpper c || isAsciiLower c

def isAsciiAlnum (c : Char) : Bool := isAsciiAlpha c || isAsciiDigit c

/-- Whitespace characters recognised by Python `str.split()` (ASCII range):
space, tab, newline, vertical tab, form feed, carriage return. -/
def pyIsSpace (c : Char) : Bool :=
  c.toNat = 32 || c.toNat = 9 || c.toNat = 10 || c.toNat = 11 || c.toNat = 12 || c.toNat = 13

/-- Python `str.lower` on a single character (ASCII range). -/
def pyToLower (c : Char) : Char :=
  if isAsciiUpper c then Char.ofNat (c.toNat + 32) else c

/-- Python `str.upper` on a single character (ASCII range); used by `str.title`. -/
def pyToUpper (c : Char) : Char :=
  if isAsciiLower c then Char.ofNat (c.toNat - 32) else c

/-! ## Name-casing utilities (converter.py lines 8-25) -/

/-- One step of `re.sub(r'[\W_]+', ' ', name)`: every maximal run of
non-alphanumeric characters is replaced by a single space.  The flag records
whether the previous character belonged to such a run. -/
def subRunsAux : Bool → List Char → List Char
  | _, [] => []
  | inRun, c :: cs =>
    if isAsciiAlnum c then c :: subRunsAux false cs
    else if inRun then subRunsAux true cs
    else ' ' :: subRunsAux true cs

def subRuns (l : List Char) : List Char := subRunsAux false l

/-- Python `str.split()` (split on whitespace runs, dropping empty pieces);
`cur` is the reversed word currently being accumulated. -/
def pySplitAux (cur : List Char) : List Char → List (List Char)
  | [] => if cur = [] then [] else [cur.reverse]
  | c :: cs =>
    if pyIsSpace c then
      if cur = [] then pySplitAux [] cs else cur.reverse :: pySplitAux [] cs
    else pySplitAux (c :: cur) cs

def pySplit (l : List Char) : List (List Char) := pySplitAux [] l

/-- Python `'_'.join(words)`. -/
def joinUnderscore : List (List Char) → List Char
  | [] => []
  | [w] => w
  | w :: ws => w ++ '_' :: joinUnderscore ws

/-- `snake_case` (converter.py lines 8-11): replace non-alphanumeric runs with a
space, lowercase, split on whitespace, join the words with underscores. -/
def snake_case (name : String) : String :=
  String.mk (joinUnderscore (pySplit ((subRuns name.data).map pyToLower)))

/-- Python `str.title` (ASCII model): a letter is uppercased after a non-letter
(or at the start) and lowercased after a letter; other characters pass through.
The flag records whether the previous character was a (cased) letter. -/
def titleAux : Bool → List Char → List Char
  | _, [] => []
  | prevCased, c :: cs =>
    if isAsciiAlpha c then
      (if prevCased then pyToLower c else pyToUpper c) :: titleAux true cs
    else c :: titleAux false cs

def pyTitle (l : List Char) : List Char := titleAux false l

/-- `upper_camel_case` (converter.py lines 13-15):
`''.join(word.title() for word in name.split()).replace('_', '')`. -/
def upper_camel_case (name : String) : String :=
  String.mk ((((pySplit name.data).map pyTitle).flatten).filter (fun c => c ≠ '_'))

/-- `lower_camel_case` (converter.py lines 16-25).  `none` models the uncaught
`IndexError` Python raises at `name[0]` when the input is non-empty but
whitespace-only (then `''.join(...)` is empty). -/
def lower_camel_case (name : String) : Option String :=
  if name.data = [] then some name
  else
    match ((pySplit name.data).map pyTitle).flatten with
    | [] => none
    | c :: cs => some (String.mk ((pyToLower c :: cs).filter (fun d => d ≠ '_')))

/-- `lower_camel_case` at call sites where the Python call provably cannot
raise (its argument is a known identifier or a `snake_case` output). -/
def lccD (name : String) : String := (lower_camel_case name).getD ""

/-! ## Placeholder utilities (converter.py lines 28-43) -/

/-- Scan the text following a double opening brace for the closing double
brace of `\x7b\x7b(.*?)\x7d\x7d` (non-greedy, `.` does not match a newline).
Returns the placeholder body and the remaining text. -/
def findClose : List Char → Option (List Char × List Char)
  | [] => none
  | c :: cs =>
    match cs with
    | d :: cs2 =>
      if c = '\x7d' && d = '\x7d' then some ([], cs2)
      else if c = '\n' then none
      else (findClose cs).map (fun p => (c :: p.1, p.2))
    | [] => none

/-- `extract_variables` (lines 28-30): `re.findall` of the placeholder pattern,
scanning left to right.  `fuel` bounds the scan position (call with the length
of the text); the regex engine advances at least one character per step. -/
def extractVarsAux : Nat → List Char → List (List Char)
  | 0, _ => []
  | _, [] => []
  | fuel + 1, c :: cs =>
    match c, cs with
    | '\x7b', d :: cs2 =>
      if d = '\x7b' then
        match findClose cs2 with
        | some (inner, after) => inner :: extractVarsAux fuel after
        | none => extractVarsAux fuel cs
      else extractVarsAux fuel cs
    | _, _ => extractVarsAux fuel cs

def extract_variables (text : String) : List String :=
  (extractVarsAux text.data.length text.data).map String.mk

/-- `contains_placeholder` is unused by the converter; the `in` test
`'\x7b\x7b' in value` from lines 214 and 253 is a substring check. -/
def listHasSub (pat : List Char) : List Char → Bool
  | [] => pat.isEmpty
  | c :: cs => pat.isPrefixOf (c :: cs) || listHasSub pat cs

def hasSubstr (s pat : String) : Bool := listHasSub pat.data s.data

/-- `replace_header_variables` (lines 41-43): substitute every placeholder by
`$` followed by the lowerCamelCase form of its body.  `none` models the
`IndexError` `lower_camel_case` raises on a whitespace-only body. -/
def replaceHeaderVarsAux : Nat → List Char → Option (List Char)
  | 0, l => some l
  | _, [] => some []
  | fuel + 1, c :: cs =>
    match c, cs with
    | '\x7b', d :: cs2 =>
      if d = '\x7b' then
        match findClose cs2 with
        | some (inner, after) =>
          match lower_camel_case (String.mk inner) with
          | some nm => (replaceHeaderVarsAux fuel after).map (fun t => '$' :: (nm.data ++ t))
          | none => none
        | none => (replaceHeaderVarsAux fuel cs).map (fun t => c :: t)
      else (replaceHeaderVarsAux fuel cs).map (fun t => c :: t)
    | _, _ => (replaceHeaderVarsAux fuel cs).map (fun t => c :: t)

def replace_header_variables (value : String) : Option String :=
  (replaceHeaderVarsAux value.data.length value.data).map String.mk

/-! ## Path-parameter inference (converter.py lines 45-58) -/

/-- Python `str.replace(old, new)` with non-empty `old`: left-to-right,
non-overlapping replacement of every occurrence.  `fuel` bounds the scan
position (call with the length of the text). -/
def replaceAllAux (pat repl : List Char) : Nat → List Char → List Char
  | 0, l => l
  | _, [] => []
  | fuel + 1, c :: cs =>
    if pat.isPrefixOf (c :: cs) then repl ++ replaceAllAux pat repl fuel ((c :: cs).drop pat.length)
    else c :: replaceAllAux pat repl fuel cs

/-- `str.replace`; the converter only ever replaces non-empty patterns
(path segments matched by the regexes, and the two-space string). -/
def pyReplace (s pat repl : String) : String :=
  if pat.data = [] then s
  else String.mk (replaceAllAux pat.data repl.data s.data.length s.data)

/-- Full match of `[a-f0-9]\x7b24,\x7d` (the "UUID-like" pattern of line 50). -/
def matchesHex24 (s : String) : Bool :=
  decide (24 ≤ s.data.length) && s.data.all (fun c => isAsciiDigit c || (97 ≤ c.toNat && c.toNat ≤ 102))

/-- Full match of `\d+` (the numeric pattern of line 54). -/
def matchesDigits (s : String) : Bool :=
  decide (s.data ≠ []) && s.data.all isAsciiDigit

/-- The name synthesized for a dynamic segment at index `i` of a path of
`plen` segments: `id` for the final segment, otherwise `param<i>`. -/
def dynName (plen i : Nat) : String := if i = plen - 1 then "id" else "param" ++ toString i

/-- One iteration of the loop of `handle_path_parameters`: `p` is the pair of
the segment index and the segment, `plen` the number of path segments, and the
accumulator carries `updated_url` and `path_variables`. -/
def hppStep (plen : Nat) (acc : String × List String) (p : Nat × String) : String × List String :=
  if matchesHex24 p.2 then
    let param_name := dynName plen p.1
    (pyReplace acc.1 p.2 ("$" ++ param_name), acc.2 ++ [lccD param_name])
  else if matchesDigits p.2 then
    let param_name := dynName plen p.1
    (pyReplace acc.1 p.2 ("$" ++ param_name), acc.2 ++ [lccD param_name])
  else acc

/-- `handle_path_parameters` (converter.py lines 45-58). -/
def handle_path_parameters (url : String) (path : List String) : String × List String :=
  (path.enum).foldl (hppStep path.length) (url, [])

/-! ## JSON values and the two class generators (converter.py lines 60-167) -/

/-- Values `json.loads` can produce.  Floating-point payloads are not needed by
any claim, so `float` carries no data (the generators only inspect the type). -/
inductive PyJson where
  | null : PyJson
  | bool (b : Bool) : PyJson
  | int (n : Int) : PyJson
  | float : PyJson
  | str (s : String) : PyJson
  | list (xs : List PyJson) : PyJson
  | dict (xs : List (String × PyJson)) : PyJson

def PyJson.isDict : PyJson → Bool
  | .dict _ => true
  | _ => false

/-- Python `str.isdigit` (ASCII model): non-empty and all digits. -/
def pyIsDigitStr (l : List Char) : Bool := decide (l ≠ []) && l.all isAsciiDigit

/-- The field-type inference shared by both generators (lines 79-96 and
134-151): `isinstance` dispatch, then the string heuristics
`== "true"/"false"`, `isdigit()`, `replace('.', '').isdigit()`. -/
def dartTypeOf (v : PyJson) : String :=
  match v with
  | .list _ => "final List<dynamic>?"
  | .bool _ => "final bool?"
  | .int _ => "final int?"
  | .float => "final double?"
  | .str s =>
    if s = "true" || s = "false" then "final bool?"
    else if pyIsDigitStr s.data then "final int?"
    else if pyIsDigitStr (s.data.filter (fun c => c ≠ '.')) then "final double?"
    else "final String?"
  | _ => "dynamic"

/-- `generate_query_class` (converter.py lines 60-112).  A Python dict in
insertion order is modelled as a key-value list; the `pop` loop over
`empty_lists` removes every empty-string key before any text is generated. -/
def generate_query_class (query_params : List (String × PyJson)) (class_name : String) : String :=
  if query_params.isEmpty then ""
  else
    let query_content := query_params.filter (fun p => p.1 ≠ "")
    "class " ++ class_name ++ " \x7b\n"
    ++ String.join (query_content.map (fun p => "  " ++ dartTypeOf p.2 ++ " " ++ p.1 ++ ";\n"))
    ++ "\n  const " ++ class_name ++ "(\x7b"
    ++ (String.intercalate ", " (query_content.map (fun p => "this." ++ p.1)) ++ ",")
    ++ "\x7d);\n\n"
    ++ "  Map<String, dynamic> toMap() \x7b\n    return \x7b\n"
    ++ String.join (query_content.map
        (fun p => "      if (" ++ p.1 ++ " != null) \x27" ++ p.1 ++ "\x27: " ++ p.1 ++ ",\n"))
    ++ "    \x7d;\n  \x7d\n"
    ++ "\x7d\n"

/-- The class text `generate_body_class` builds from a successfully parsed
dict (converter.py lines 128-167).  The empty-string key is skipped by
`continue` in the field loop only; the constructor and `toJson` loops iterate
over all of `body_content`. -/
def bodyClassOfDict (body_content : List (String × PyJson)) (class_name : String) : String :=
  "class " ++ class_name ++ " \x7b\n"
  ++ String.join (body_content.map
      (fun p => if p.1 = "" then "" else "  " ++ dartTypeOf p.2 ++ " " ++ p.1 ++ ";\n"))
  ++ "\n  const " ++ class_name ++ "(\x7b"
  ++ (String.intercalate ", " (body_content.map (fun p => "this." ++ p.1)) ++ ",")
  ++ "\x7d);\n\n"
  ++ "  Map<String, dynamic> toJson() \x7b\n    return \x7b\n"
  ++ String.join (body_content.map
      (fun p => "      if (" ++ p.1 ++ " != null) \x27" ++ p.1 ++ "\x27: " ++ p.1 ++ ",\n"))
  ++ "    \x7d;\n  \x7d\n"
  ++ "\x7d\n"

/-- `generate_body_class` (converter.py lines 116-167).  The result pairs the
generated text with the lines printed to stdout; `Except.error` carries the
name of an uncaught exception (`body_content.items()` on a non-dict raises
`AttributeError`). -/
def generate_body_class (loads : String → Option PyJson) (body_raw : String)
    (class_name : String) : Except String (String × List String) :=
  if body_raw = "" then .ok ("", [])
  else
    match loads body_raw with
    | none => .ok ("", ["Invalid JSON body"])
    | some (PyJson.dict m) => .ok (bodyClassOfDict m class_name, [])
    | some _ => .error "AttributeError"

/-! ## Request function generator (converter.py lines 169-279) -/

/-- A Postman request as accessed by the converter: `auth` is the value of
`auth.get('type')` when an `auth` object is present; `body_raw` is
`body.get('raw', '')` when a (truthy) `body` object is present. -/
structure Request where
  method : String
  url_raw : String
  url_path : List String
  url_query : List (String × String)
  header : List (String × String)
  body_raw : Option String
  auth : Option String

/-- The values `generate_dio_function` returns, plus the lines printed to
stdout while it ran. -/
structure DioOut where
  code : String
  folder : String
  filename : String
  query_class : String
  body_class : String
  printed : List String
deriving DecidableEq

/-- Python `str.lower` (ASCII model). -/
def pyLower (s : String) : String := String.mk (s.data.map pyToLower)

/-- `re.split(r'\?', url)[0]` (line 178): the text before the first `?`. -/
def splitOnQmark (s : String) : String := String.mk (s.data.takeWhile (fun c => c ≠ '?'))

/-- Characters allowed in the host part of the base-URL pattern (line 181). -/
def hostChar (c : Char) : Bool := isAsciiAlnum c || c = '.' || c = '-'

/-- Matching of `^(https?://[a-zA-Z0-9.-]+(:[0-9]+)?)(/.*)?$` (line 181):
returns group 1 (the base URL) and group 3 (the endpoint, empty when the
optional group is absent), or `none` when the regex does not match. -/
def parse_base_url (u : List Char) : Option (List Char × List Char) :=
  let rest? : Option (List Char × List Char) :=
    if ("http://".data).isPrefixOf u then some ("http://".data, u.drop 7)
    else if ("https://".data).isPrefixOf u then some ("https://".data, u.drop 8)
    else none
  match rest? with
  | none => none
  | some (scheme, rest) =>
    let host := rest.takeWhile hostChar
    if host.isEmpty then none
    else
      let afterHost := rest.dropWhile hostChar
      let pr : List Char × List Char :=
        match afterHost with
        | ':' :: t =>
          let d := t.takeWhile isAsciiDigit
          if d.isEmpty then ([], afterHost) else (':' :: d, t.dropWhile isAsciiDigit)
        | _ => ([], afterHost)
      match pr.2 with
      | [] => some (scheme ++ host ++ pr.1, [])
      | c :: rest2 => if c = '/' then some (scheme ++ host ++ pr.1, c :: rest2) else none

/-- One insertion of the dict comprehension of line 197 (later values of a
repeated key overwrite in place; a new key is appended). -/
def dictInsert (d : List (String × String)) (k v : String) : List (String × String) :=
  if d.any (fun p => p.1 = k) then d.map (fun p => if p.1 = k then (k, v) else p)
  else d ++ [(k, v)]

def dictOfPairs (l : List (String × String)) : List (String × String) :=
  l.foldl (fun d p => dictInsert d p.1 p.2) []

/-- `set(...)` of line 216, modelled as first-occurrence deduplication (the
iteration order of a CPython string set is unspecified; every claim below
exercises sets with at most one element, where the order is forced). -/
def dedupKeepFirst : List String → List String
  | [] => []
  | x :: xs => x :: (dedupKeepFirst xs).filter (fun y => y ≠ x)

def exceptOfOption (e : String) : Option α → Except String α
  | some a => .ok a
  | none => .error e

def isBearer : Option String → Bool
  | some t => t = "bearer"
  | none => false

/-- Lines 204-209: generate the body class when a body with non-empty raw
text is present. -/
def bodyStep (loads : String → Option PyJson) (request_name : String)
    (body_raw : Option String) : Except String (String × List String) :=
  match body_raw with
  | some raw =>
    if raw ≠ "" then generate_body_class loads raw (upper_camel_case (request_name ++ "_body"))
    else pure ("", [])
  | none => pure ("", [])

/-- Lines 171-202 and 211-279 of `generate_dio_function`: everything except
the body-class generation, whose generated text is passed in as
`body_class_code`.  All conditional `+=` statements of the source become
conditional appends. -/
def dioAssembleCore (request_name : String) (req : Request) (body_class_code : String) :
    Except String DioOut := do
  let method := pyLower req.method
  let url := req.url_raw
  let headers := req.header
  let url_without_query := splitOnQmark url
  let base_endpoint := parse_base_url url_without_query.data
  let dart_url0 :=
    match base_endpoint with
    | some p => "$baseUrl" ++ String.mk p.2
    | none => url_without_query
  let hpp := handle_path_parameters dart_url0 req.url_path
  let dart_url := hpp.1
  let path_parameters := hpp.2
  let query_params := dictOfPairs req.url_query
  let query_params_class_code :=
    if ¬ query_params.isEmpty then
      generate_query_class (query_params.map (fun p => (p.1, PyJson.str p.2)))
        (upper_camel_case (request_name ++ "_query_params"))
    else ""
  let url_variables := extract_variables dart_url
  let header_variables :=
    ((headers.filter (fun h => hasSubstr h.2 "\x7b\x7b")).map (fun h => extract_variables h.2)).flatten
  let all_variables := dedupKeepFirst (url_variables ++ header_variables ++ path_parameters)
  let lccVars ← exceptOfOption "IndexError" (all_variables.mapM lower_camel_case)
  let dart_parameters := String.intercalate ", " (lccVars.map (fun v => "required String " ++ v))
  let dart_parameters :=
    if base_endpoint.isSome then dart_parameters ++ ", required String baseUrl" else dart_parameters
  let dart_parameters :=
    if ¬ query_params.isEmpty then
      dart_parameters ++ ", required " ++ upper_camel_case (request_name ++ "_query_params") ++ " "
        ++ lccD (snake_case request_name) ++ "QueryParams"
    else dart_parameters
  let dart_parameters :=
    if body_class_code ≠ "" then
      dart_parameters ++ ", required " ++ upper_camel_case (request_name ++ "_body") ++ " "
        ++ lccD (snake_case request_name) ++ "Body"
    else dart_parameters
  let dart_parameters :=
    if isBearer req.auth then dart_parameters ++ ", required String accessToken" else dart_parameters
  let function_name ← exceptOfOption "IndexError" (lower_camel_case request_name)
  let dart_code := "import \x27package:dio/dio.dart\x27;\n\n"
  let dart_code :=
    if ¬ query_params.isEmpty then
      dart_code ++ "import \x27" ++ snake_case request_name ++ "_query_params.dart\x27;\n"
    else dart_code
  let dart_code :=
    if body_class_code ≠ "" then
      dart_code ++ "import \x27" ++ snake_case request_name ++ "_body.dart\x27;\n\n"
    else dart_code
  let dart_code := dart_code ++ "class " ++ upper_camel_case request_name ++ " \x7b\n"
  let dart_code := dart_code ++ "  static Future<Response> " ++ function_name ++ "(\x7b"
      ++ dart_parameters ++ "\x7d) async \x7b\n"
  let dart_code := dart_code ++ "    Dio dio = Dio();\n"
  let headerLines ← exceptOfOption "IndexError" (headers.mapM (fun h =>
    if hasSubstr h.2 "\x7b\x7b" then
      (replace_header_variables h.2).map
        (fun rv => "      \x27" ++ h.1 ++ "\x27: " ++ rv ++ ",\n")
    else some ("      \x27" ++ h.1 ++ "\x27: \x27" ++ h.2 ++ "\x27,\n")))
  let dart_code :=
    if ¬ headers.isEmpty then
      dart_code ++ "    dio.options.headers = \x7b\n" ++ String.join headerLines ++ "    \x7d;\n"
    else dart_code
  let dart_code :=
    if isBearer req.auth then
      dart_code ++ "    dio.options.headers[\x27Authorization\x27] = \x27Bearer $accessToken\x27;\n"
    else dart_code
  let dart_code := dart_code ++ "    Response response = await dio." ++ method ++ "(\n"
  let dart_code := dart_code ++ "      \x27" ++ dart_url ++ "\x27,\n"
  let dart_code :=
    if ¬ query_params.isEmpty then
      dart_code ++ "      queryParameters: " ++ lccD (snake_case request_name) ++ "QueryParams.toMap(),\n"
    else dart_code
  let dart_code :=
    if body_class_code ≠ "" then
      dart_code ++ "      data: " ++ lccD (snake_case request_name) ++ "Body.toJson(),\n"
    else dart_code
  let dart_code := dart_code ++ "    );\n\n"
  let dart_code := dart_code ++ "    print(response.data);\n\n"
  let dart_code := dart_code ++ "    return response;\n"
  let dart_code := dart_code ++ "  \x7d\n\x7d\n"
  let folder_name := snake_case request_name
  let filename := folder_name ++ ".dart"
  pure ⟨dart_code, folder_name, filename, query_params_class_code, body_class_code, []⟩

/-- The rest of `generate_dio_function` applied to the result of the
body-class step: the body-class text feeds the assembly and the lines the
body step printed are attached to the output. -/
def dioAssemble (request_name : String) (req : Request) (bodyRes : String × List String) :
    Except String DioOut :=
  (dioAssembleCore request_name req bodyRes.1).map (fun o => { o with printed := bodyRes.2 })

/-- `generate_dio_function` (converter.py lines 169-279). -/
def generate_dio_function (loads : String → Option PyJson) (request_name : String)
    (req : Request) : Except String DioOut := do
  let bodyRes ← bodyStep loads request_name req.body_raw
  dioAssemble request_name req bodyRes

/-! ## Collection walker (converter.py lines 280-339) -/

/-- `os.path.join` for the relative paths the converter builds. -/
def pjoin (a b : String) : String := a ++ "/" ++ b

/-- One file written by the walker: target directory, file name, content. -/
structure FsWrite where
  dir : String
  file : String
  content : String
deriving DecidableEq

/-- The three writes performed for one generated request (the function file,
and the query/body class files when their text is non-empty). -/
def request_files (loads : String → Option PyJson) (request_name : String) (req : Request)
    (output_dir : String) : Except String (List FsWrite) := do
  let o ← generate_dio_function loads request_name req
  let request_folder := pjoin output_dir o.folder
  pure ([⟨request_folder, o.filename, o.code⟩]
    ++ (if o.query_class ≠ "" then [⟨request_folder, o.folder ++ "_query_params.dart", o.query_class⟩] else [])
    ++ (if o.body_class ≠ "" then [⟨request_folder, o.folder ++ "_body.dart", o.body_class⟩] else []))

/-- A Postman item: a leaf holding a request, or a folder (a dict with an
`item` list) holding further items. -/
inductive PMItem where
  | leaf (name : String) (request : Request) : PMItem
  | folder (name : String) (items : List PMItem) : PMItem

/-- Sequential processing of a list of items: errors abort the whole run and
the writes of the processed items are concatenated in order. -/
def exceptFlatMap {α : Type} (f : α → Except String (List FsWrite)) :
    List α → Except String (List FsWrite)
  | [] => .ok []
  | x :: xs => do
    let w ← f x
    let ws ← exceptFlatMap f xs
    pure (w ++ ws)

/-- Depth-3 items (lines 289-305) are treated as leaves unconditionally: the
name has runs of two spaces collapsed, and a folder here has no `request`
key, so the subscript raises an uncaught `KeyError`. -/
def processItem3 (loads : String → Option PyJson) (out : String) :
    PMItem → Except String (List FsWrite)
  | .leaf n r => request_files loads (pyReplace n "  " " ") r out
  | .folder _ _ => .error "KeyError"

/-- Depth-2 items (lines 287-322): a folder descends one further level. -/
def processItem2 (loads : String → Option PyJson) (out : String) :
    PMItem → Except String (List FsWrite)
  | .leaf n r => request_files loads n r out
  | .folder _ its => exceptFlatMap (processItem3 loads out) its

/-- Depth-1 items (lines 285-339). -/
def processItem1 (loads : String → Option PyJson) (out : String) :
    PMItem → Except String (List FsWrite)
  | .leaf n r => request_files loads n r out
  | .folder _ its => exceptFlatMap (processItem2 loads out) its

/-- `process_postman_collection` (converter.py lines 280-339), modelled as the
list of file writes it performs; `items` is `collection['item']`. -/
def process_postman_collection (loads : String → Option PyJson) (items : List PMItem)
    (output_dir : String) : Except String (List FsWrite) :=
  exceptFlatMap (processItem1 loads output_dir) items

/-! ## Character-level lemmas -/

theorem char_toNat_ofNat (n : Nat) (h : n < 55296) : (Char.ofNat n).toNat = n := by
  have hv : n.isValidChar := Or.inl h
  rw [Char.ofNat, dif_pos hv]
  rfl

theorem char_eq_of_toNat_eq {a b : Char} (h : a.toNat = b.toNat) : a = b := by
  apply Char.ext
  exact UInt32.ext h

theorem char_toNat_lt (c : Char) : c.toNat < 1114112 := by
  have := c.valid
  rcases this with h | ⟨_, h2⟩
  · exact Nat.lt_trans h (by decide)
  · exact h2

theorem pyToLower_toNat_of_upper {c : Char} (h : isAsciiUpper c = true) :
    (pyToLower c).toNat = c.toNat + 32 := by
  have hb : 65 ≤ c.toNat ∧ c.toNat ≤ 90 := by
    simpa [isAsciiUpper, Bool.and_eq_true, decide_eq_true_eq] using h
  rw [pyToLower, if_pos h]
  exact char_toNat_ofNat _ (by omega)

theorem pyToUpper_toNat_of_lower {c : Char} (h : isAsciiLower c = true) :
    (pyToUpper c).toNat = c.toNat - 32 := by
  have hb : 97 ≤ c.toNat ∧ c.toNat ≤ 122 := by
    simpa [isAsciiLower, Bool.and_eq_true, decide_eq_true_eq] using h
  rw [pyToUpper, if_pos h]
  exact char_toNat_ofNat _ (by omega)

theorem pyToLower_of_not_upper {c : Char} (h : isAsciiUpper c = false) :
    pyToLower c = c := by
  rw [pyToLower, if_neg]
  simp [h]

theorem pyToUpper_of_not_lower {c : Char} (h : isAsciiLower c = false) :
    pyToUpper c = c := by
  rw [pyToUpper, if_neg]
  simp [h]

theorem isAsciiUpper_iff {c : Char} : isAsciiUpper c = true ↔ 65 ≤ c.toNat ∧ c.toNat ≤ 90 := by
  simp [isAsciiUpper, Bool.and_eq_true, decide_eq_true_eq]

theorem isAsciiLower_iff {c : Char} : isAsciiLower c = true ↔ 97 ≤ c.toNat ∧ c.toNat ≤ 122 := by
  simp [isAsciiLower, Bool.and_eq_true, decide_eq_true_eq]

theorem isAsciiDigit_iff {c : Char} : isAsciiDigit c = true ↔ 48 ≤ c.toNat ∧ c.toNat ≤ 57 := by
  simp [isAsciiDigit, Bool.and_eq_true, decide_eq_true_eq]

theorem isAsciiLower_pyToLower_of_upper {c : Char} (h : isAsciiUpper c = true) :
    isAsciiLower (pyToLower c) = true := by
  have hb := isAsciiUpper_iff.mp h
  have ht := pyToLower_toNat_of_upper h
  rw [isAsciiLower_iff]
  omega

theorem pyToLower_pyToLower (c : Char) : pyToLower (pyToLower c) = pyToLower c := by
  by_cases h : isAsciiUpper c = true
  · have h2 : isAsciiLower (pyToLower c) = true := isAsciiLower_pyToLower_of_upper h
    have h3 : isAsciiUpper (pyToLower c) = false := by
      have := isAsciiLower_iff.mp h2
      rw [Bool.eq_false_iff, Ne, isAsciiUpper_iff]
      omega
    exact pyToLower_of_not_upper h3
  · rw [pyToLower_of_not_upper (Bool.of_not_eq_true h)]
    exact pyToLower_of_not_upper (Bool.of_not_eq_true h)

theorem isAsciiUpper_pyToUpper_of_lower {c : Char} (h : isAsciiLower c = true) :
    isAsciiUpper (pyToUpper c) = true := by
  have hb := isAsciiLower_iff.mp h
  have ht := pyToUpper_toNat_of_lower h
  rw [isAsciiUpper_iff]
  omega

theorem pyToUpper_pyToUpper (c : Char) : pyToUpper (pyToUpper c) = pyToUpper c := by
  by_cases h : isAsciiLower c = true
  · have h2 : isAsciiUpper (pyToUpper c) = true := isAsciiUpper_pyToUpper_of_lower h
    have h3 : isAsciiLower (pyToUpper c) = false := by
      have := isAsciiUpper_iff.mp h2
      rw [Bool.eq_false_iff, Ne, isAsciiLower_iff]
      omega
    exact pyToUpper_of_not_lower h3
  · rw [pyToUpper_of_not_lower (Bool.of_not_eq_true h)]
    exact pyToUpper_of_not_lower (Bool.of_not_eq_true h)

theorem pyToUpper_pyToLower_pyToUpper (c : Char) :
    pyToUpper (pyToLower (pyToUpper c)) = pyToUpper c := by
  by_cases h : isAsciiLower c = true
  · have h1 : isAsciiUpper (pyToUpper c) = true := isAsciiUpper_pyToUpper_of_lower h
    have hb := isAsciiLower_iff.mp h
    have ht := pyToUpper_toNat_of_lower h
    have h2 : isAsciiLower (pyToLower (pyToUpper c)) = true := isAsciiLower_pyToLower_of_upper h1
    have ht2 := pyToLower_toNat_of_upper h1
    have ht3 := pyToUpper_toNat_of_lower h2
    apply char_eq_of_toNat_eq
    omega
  · rw [pyToUpper_of_not_lower (Bool.of_not_eq_true h)]
    by_cases h2 : isAsciiUpper c = true
    · have h3 : isAsciiLower (pyToLower c) = true := isAsciiLower_pyToLower_of_upper h2
      have hb := isAsciiUpper_iff.mp h2
      have ht := pyToLower_toNat_of_upper h2
      have ht2 := pyToUpper_toNat_of_lower h3
      apply char_eq_of_toNat_eq
      omega
    · rw [pyToLower_of_not_upper (Bool.of_not_eq_true h2)]
      exact pyToUpper_of_not_lower (Bool.of_not_eq_true h)

theorem isAsciiAlpha_pyToLower (c : Char) : isAsciiAlpha (pyToLower c) = isAsciiAlpha c := by
  by_cases h : isAsciiUpper c = true
  · have h2 := isAsciiLower_pyToLower_of_upper h
    simp [isAsciiAlpha, h, h2]
  · rw [pyToLower_of_not_upper (Bool.of_not_eq_true h)]

theorem isAsciiAlpha_pyToUpper (c : Char) : isAsciiAlpha (pyToUpper c) = isAsciiAlpha c := by
  by_cases h : isAsciiLower c = true
  · have h2 := isAsciiUpper_pyToUpper_of_lower h
    simp [isAsciiAlpha, h, h2]
  · rw [pyToUpper_of_not_lower (Bool.of_not_eq_true h)]

theorem isAsciiAlnum_pyToLower (c : Char) : isAsciiAlnum (pyToLower c) = isAsciiAlnum c := by
  by_cases h : isAsciiUpper c = true
  · have hb := isAsciiUpper_iff.mp h
    have ht := pyToLower_toNat_of_upper h
    have h2 := isAsciiLower_pyToLower_of_upper h
    have h3 : isAsciiDigit (pyToLower c) = false := by
      rw [Bool.eq_false_iff, Ne, isAsciiDigit_iff]; omega
    have h4 : isAsciiDigit c = false := by
      rw [Bool.eq_false_iff, Ne, isAsciiDigit_iff]; omega
    simp [isAsciiAlnum, isAsciiAlpha, h, h2, h3, h4]
  · rw [pyToLower_of_not_upper (Bool.of_not_eq_true h)]

theorem not_space_of_alnum {c : Char} (h : isAsciiAlnum c = true) : pyIsSpace c = false := by
  rcases Bool.or_eq_true_iff.mp h with h1 | h1
  · rcases Bool.or_eq_true_iff.mp h1 with h2 | h2
    · have := isAsciiUpper_iff.mp h2
      simp only [pyIsSpace, Bool.or_eq_false_iff, decide_eq_false_iff_not]
      omega
    · have := isAsciiLower_iff.mp h2
      simp only [pyIsSpace, Bool.or_eq_false_iff, decide_eq_false_iff_not]
      omega
  · have := isAsciiDigit_iff.mp h1
    simp only [pyIsSpace, Bool.or_eq_false_iff, decide_eq_false_iff_not]
    omega

theorem not_space_pyToLower {c : Char} (h : pyIsSpace c = false) :
    pyIsSpace (pyToLower c) = false := by
  by_cases hu : isAsciiUpper c = true
  · exact not_space_of_alnum (by simp [isAsciiAlnum, isAsciiAlpha, isAsciiLower_pyToLower_of_upper hu])
  · rwa [pyToLower_of_not_upper (Bool.of_not_eq_true hu)]

theorem not_space_pyToUpper {c : Char} (h : pyIsSpace c = false) :
    pyIsSpace (pyToUpper c) = false := by
  by_cases hu : isAsciiLower c = true
  · exact not_space_of_alnum (by simp [isAsciiAlnum, isAsciiAlpha, isAsciiUpper_pyToUpper_of_lower hu])
  · rwa [pyToUpper_of_not_lower (Bool.of_not_eq_true hu)]

theorem pyToLower_ne_underscore {c : Char} (h : c ≠ '_') : pyToLower c ≠ '_' := by
  by_cases hu : isAsciiUpper c = true
  · have h2 := isAsciiLower_pyToLower_of_upper hu
    intro he
    rw [he] at h2
    exact absurd h2 (by decide)
  · rwa [pyToLower_of_not_upper (Bool.of_not_eq_true hu)]

theorem pyToUpper_ne_underscore {c : Char} (h : c ≠ '_') : pyToUpper c ≠ '_' := by
  by_cases hu : isAsciiLower c = true
  · have h2 := isAsciiUpper_pyToUpper_of_lower hu
    intro he
    rw [he] at h2
    exact absurd h2 (by decide)
  · rwa [pyToUpper_of_not_lower (Bool.of_not_eq_true hu)]

theorem lower_or_digit_pyToLower_of_alnum {c : Char} (h : isAsciiAlnum c = true) :
    (isAsciiLower (pyToLower c) || isAsciiDigit (pyToLower c)) = true := by
  rcases Bool.or_eq_true_iff.mp h with h1 | h1
  · rcases Bool.or_eq_true_iff.mp h1 with h2 | h2
    · simp [isAsciiLower_pyToLower_of_upper h2]
    · have := isAsciiLower_iff.mp h2
      have hnu : isAsciiUpper c = false := by
        rw [Bool.eq_false_iff, Ne, isAsciiUpper_iff]; omega
      rw [pyToLower_of_not_upper hnu]
      simp [h2]
  · have := isAsciiDigit_iff.mp h1
    have hnu : isAsciiUpper c = false := by
      rw [Bool.eq_false_iff, Ne, isAsciiUpper_iff]; omega
    rw [pyToLower_of_not_upper hnu]
    simp [h1]

/-! ## Predicates used by the claim statements -/

/-- A path segment the converter classifies as dynamic: a full match of the
24-plus-character lowercase-hex pattern or of the all-digits pattern. -/
def isDynamicSegment (s : String) : Bool := matchesHex24 s || matchesDigits s

/-- Lowercase the first character of a character list (Python
`name[0].lower() + name[1:]`). -/
def lowerFirst : List Char → List Char
  | [] => []
  | c :: cs => pyToLower c :: cs

/-- No two consecutive underscores occur in the list. -/
def noDoubleUnderscore : List Char → Bool
  | [] => true
  | [_] => true
  | a :: b :: t => !(a = '_' && b = '_') && noDoubleUnderscore (b :: t)

/-- The single request of the end-to-end claim: GET on
`http://localhost:8080/users/123` with path segments `users`, `123` and no
query, headers, body, or auth. -/
def req123 : Request :=
  { method := "GET", url_raw := "http://localhost:8080/users/123",
    url_path := ["users", "123"], url_query := [], header := [],
    body_raw := none, auth := none }

/-- The function source generated for `req123` under a request name `n` whose
lowerCamelCase form is `fn`. -/
def c1code (n fn : String) : String :=
  "import \x27package:dio/dio.dart\x27;\n\n" ++ "class " ++ upper_camel_case n ++ " \x7b\n"
  ++ "  static Future<Response> " ++ fn ++ "(\x7b" ++ "required String id, required String baseUrl"
  ++ "\x7d) async \x7b\n" ++ "    Dio dio = Dio();\n"
  ++ "    Response response = await dio." ++ "get" ++ "(\n"
  ++ "      \x27" ++ "$baseUrl/users/$id" ++ "\x27,\n"
  ++ "    );\n\n" ++ "    print(response.data);\n\n" ++ "    return response;\n" ++ "  \x7d\n\x7d\n"

/-- An item reached at nesting depth three must be a leaf for the walker to
handle it. -/
def okItemD3 : PMItem → Bool
  | .leaf _ _ => true
  | .folder _ _ => false

/-- An item at depth two is fine if it is a leaf or a folder of depth-3
leaves. -/
def okItemD2 : PMItem → Bool
  | .leaf _ _ => true
  | .folder _ its => its.all okItemD3

/-- Every item at nesting depth three below this depth-1 item is a leaf. -/
def okDepth3Item : PMItem → Bool
  | .leaf _ _ => true
  | .folder _ its => its.all okItemD2

def okDepth3 (items : List PMItem) : Bool := items.all okDepth3Item

/-- The leaf request a depth-3 item holds (with the two-space collapse the
walker applies to depth-3 names). -/
def leavesD3only : PMItem → List (String × Request)
  | .leaf n r => [(pyReplace n "  " " ", r)]
  | .folder _ _ => []

def leavesD2 : PMItem → List (String × Request)
  | .leaf n r => [(n, r)]
  | .folder _ its => (its.map leavesD3only).flatten

/-- The leaf requests of the first three nesting levels below a depth-1 item,
in traversal order. -/
def leavesOfItem : PMItem → List (String × Request)
  | .leaf n r => [(n, r)]
  | .folder _ its => (its.map leavesD2).flatten

def leavesDepth3 (items : List PMItem) : List (String × Request) :=
  (items.map leavesOfItem).flatten

/-! ## Claim C5: field-type inference precedence -/

set_option maxRecDepth 10000 in
/-- Claim C5 (amended): for string values the inference tries the boolean
literals first, then all-digit text, then text that consists of digits and
dots and contains at least one digit (the code deletes every dot before the
digit test, so any number of dots qualifies, not only a single one), and
otherwise falls back to string; on the example mapping the generated query
class types limit, active, name as integer, boolean, string. -/
theorem C5_type_inference_precedence :
    (∀ s : String, (s = "true" ∨ s = "false") → dartTypeOf (.str s) = "final bool?")
    ∧ (∀ s : String, s.data ≠ [] → s.data.all isAsciiDigit = true →
        dartTypeOf (.str s) = "final int?")
    ∧ (∀ s : String, s ≠ "true" → s ≠ "false" →
        ¬ (s.data ≠ [] ∧ s.data.all isAsciiDigit = true) →
        s.data.all (fun c => isAsciiDigit c || c = '.') = true →
        (∃ c ∈ s.data, isAsciiDigit c = true) →
        dartTypeOf (.str s) = "final double?")
    ∧ (∀ s : String, s ≠ "true" → s ≠ "false" →
        ¬ (s.data ≠ [] ∧ s.data.all isAsciiDigit = true) →
        ¬ ((s.data.filter (fun c => c ≠ '.')) ≠ [] ∧
            (s.data.filter (fun c => c ≠ '.')).all isAsciiDigit = true) →
        dartTypeOf (.str s) = "final String?")
    ∧ generate_query_class
        [("limit", .str "10"), ("active", .str "true"), ("name", .str "x")] "Q"
      = "class Q \x7b\n  final int? limit;\n  final bool? active;\n  final String? name;\n\n  const Q(\x7bthis.limit, this.active, this.name,\x7d);\n\n  Map<String, dynamic> toMap() \x7b\n    return \x7b\n      if (limit != null) \x27limit\x27: limit,\n      if (active != null) \x27active\x27: active,\n      if (name != null) \x27name\x27: name,\n    \x7d;\n  \x7d\n\x7d\n" := by
  refine ⟨?_, ?_, ?_, ?_, ?_⟩
  · rintro s (rfl | rfl) <;> rfl
  · intro s hne hall
    have h1 : s ≠ "true" := by
      rintro rfl
      exact absurd (List.all_eq_true.mp hall 't' (by decide)) (by decide)
    have h2 : s ≠ "false" := by
      rintro rfl
      exact absurd (List.all_eq_true.mp hall 'f' (by decide)) (by decide)
    have hc2 : pyIsDigitStr s.data = true := by
      simp [pyIsDigitStr, hne, hall]
    simp [dartTypeOf, h1, h2, hc2]
  · intro s h1 h2 h3 hall hex
    obtain ⟨c, hc, hcd⟩ := hex
    have hdig2 : pyIsDigitStr s.data = false := by
      rw [Bool.eq_false_iff]
      intro hT
      exact h3 (by simpa [pyIsDigitStr] using hT)
    have hcdot : c ≠ '.' := by
      have := isAsciiDigit_iff.mp hcd
      intro he
      rw [he] at this
      simp at this
    have hfil : pyIsDigitStr (s.data.filter (fun c => c ≠ '.')) = true := by
      simp only [pyIsDigitStr, Bool.and_eq_true, decide_eq_true_eq, List.all_eq_true]
      refine ⟨?_, ?_⟩
      · intro hnil
        have hmem : c ∈ s.data.filter (fun c => c ≠ '.') := by
          rw [List.mem_filter]
          exact ⟨hc, by simpa using hcdot⟩
        rw [hnil] at hmem
        simp at hmem
      · intro d hd
        rw [List.mem_filter] at hd
        have hda := List.all_eq_true.mp hall d hd.1
        rcases Bool.or_eq_true_iff.mp hda with h | h
        · exact h
        · exact absurd (decide_eq_true_eq.mp h) (by simpa using hd.2)
    have hfil2 : pyIsDigitStr (List.filter (fun c => !decide (c = '.')) s.data) = true := by
      simpa using hfil
    simp [dartTypeOf, h1, h2, hdig2, hfil2]
  · intro s h1 h2 h3 h4
    have hdig2 : pyIsDigitStr s.data = false := by
      rw [Bool.eq_false_iff]
      intro hT
      exact h3 (by simpa [pyIsDigitStr] using hT)
    have hfil : pyIsDigitStr (s.data.filter (fun c => c ≠ '.')) = false := by
      rw [Bool.eq_false_iff]
      intro hT
      exact h4 (by simpa [pyIsDigitStr] using hT)
    have hfil2 : pyIsDigitStr (List.filter (fun c => !decide (c = '.')) s.data) = false := by
      simpa using hfil
    simp [dartTypeOf, h1, h2, hdig2, hfil2]
  · decide

/-- Witness for C5: the floating-point branch applied at the text 1.5. -/
theorem C5_type_inference_precedence_witness :
    ("1.5" : String) ≠ "true" ∧ dartTypeOf (.str "1.5") = "final double?" :=
  ⟨by decide, C5_type_inference_precedence.2.2.1 "1.5" (by decide) (by decide)
    (by decide) (by decide) ⟨'1', by decide, by decide⟩⟩

/-- Counterexample to C5 as stated: the text 1.2.3 has more than one dot,
yet the generators type it as floating-point, not as string. -/
theorem C5_two_dots_counterexample :
    dartTypeOf (.str "1.2.3") = "final double?" ∧ "final double?" ≠ "final String?" :=
  ⟨rfl, by decide⟩

/-! ## Claim C3: empty-string keys in the class generators -/

theorem string_foldl_append (l : List String) (a : String) :
    List.foldl (fun r s => r ++ s) a l = a ++ List.foldl (fun r s => r ++ s) "" l := by
  induction l generalizing a with
  | nil => simp
  | cons x l ih =>
    show List.foldl (fun r s => r ++ s) (a ++ x) l = a ++ List.foldl (fun r s => r ++ s) x l
    rw [ih (a ++ x), ih x, String.append_assoc]

set_option maxRecDepth 10000 in
/-- Claim C3 (amended): in `generate_query_class` an empty-string key is
removed up front, so it contributes nothing whenever the mapping has another
key (with no other key its mere presence still makes the mapping non-empty and
a field-less class is emitted instead of empty text).  In the body-class
generator the empty key is skipped only by the field loop: the constructor
and the serialization method still iterate over it, contributing a nameless
`this.` argument and a nameless serialization entry. -/
theorem C3_empty_key_handling :
    ∀ (v : PyJson) (m : List (String × PyJson)) (cn : String),
    (¬ m.isEmpty → generate_query_class (("", v) :: m) cn = generate_query_class m cn)
    ∧ bodyClassOfDict (("", v) :: m) cn =
        "class " ++ cn ++ " \x7b\n"
        ++ String.join (m.map (fun p => if p.1 = "" then "" else "  " ++ dartTypeOf p.2 ++ " " ++ p.1 ++ ";\n"))
        ++ "\n  const " ++ cn ++ "(\x7b"
        ++ (String.intercalate ", " ("this." :: m.map (fun p => "this." ++ p.1)) ++ ",")
        ++ "\x7d);\n\n"
        ++ "  Map<String, dynamic> toJson() \x7b\n    return \x7b\n"
        ++ ("      if ( != null) \x27\x27: ,\n" ++ String.join (m.map
            (fun p => "      if (" ++ p.1 ++ " != null) \x27" ++ p.1 ++ "\x27: " ++ p.1 ++ ",\n")))
        ++ "    \x7d;\n  \x7d\n"
        ++ "\x7d\n"
    ∧ bodyClassOfDict [("", PyJson.int 1), ("a", PyJson.int 2)] "B"
      = "class B \x7b\n  final int? a;\n\n  const B(\x7bthis., this.a,\x7d);\n\n  Map<String, dynamic> toJson() \x7b\n    return \x7b\n      if ( != null) \x27\x27: ,\n      if (a != null) \x27a\x27: a,\n    \x7d;\n  \x7d\n\x7d\n" := by
  intro v m cn
  refine ⟨?_, ?_, by decide⟩
  · intro hm
    rw [Bool.not_eq_true] at hm
    simp [generate_query_class, hm]
  · simp [bodyClassOfDict, String.join]
    rw [string_foldl_append _ ("      if ( != null) \x27\x27: ,\n")]

/-- Witness for C3: the query-class part applied at a singleton tail. -/
theorem C3_empty_key_handling_witness :
    ¬ ([("a", PyJson.int 2)] : List (String × PyJson)).isEmpty
    ∧ generate_query_class [("", PyJson.int 1), ("a", PyJson.int 2)] "Q"
      = generate_query_class [("a", PyJson.int 2)] "Q" :=
  ⟨by decide, (C3_empty_key_handling (PyJson.int 1) [("a", PyJson.int 2)] "Q").1 (by decide)⟩

set_option maxRecDepth 10000 in
/-- Counterexample to C3 as stated: an empty-string key does change the
output text of both generators (for the body class it adds a constructor
argument and a serialization entry; for the query class, when it is the only
key, its presence makes the generator emit a field-less class instead of
empty text). -/
theorem C3_empty_key_counterexample :
    bodyClassOfDict [("", PyJson.int 1)] "B" ≠ bodyClassOfDict [] "B"
    ∧ generate_query_class [("", PyJson.int 1)] "Q" ≠ generate_query_class [] "Q" := by
  constructor <;> decide

/-! ## Claim C10: non-object JSON bodies abort the run -/

/-- Claim C10: when the body text parses to a non-object JSON value,
`generate_body_class` raises an uncaught `AttributeError` (it neither returns
empty text nor reports a malformed-body error), and conversely the degraded
report-and-return-empty path is taken exactly for non-empty text on which
JSON decoding fails. -/
theorem C10_non_object_body_aborts :
    (∀ (loads : String → Option PyJson) (raw cn : String) (j : PyJson),
      raw ≠ "" → loads raw = some j → j.isDict = false →
      generate_body_class loads raw cn = .error "AttributeError")
    ∧ (∀ (loads : String → Option PyJson) (raw cn : String),
      generate_body_class loads raw cn = .ok ("", ["Invalid JSON body"]) →
      raw ≠ "" ∧ loads raw = none) := by
  constructor
  · intro loads raw cn j hraw hl hdict
    unfold generate_body_class
    rw [if_neg hraw, hl]
    cases j <;> simp_all [PyJson.isDict]
  · intro loads raw cn h
    unfold generate_body_class at h
    by_cases hraw : raw = ""
    · rw [if_pos hraw] at h
      simp at h
    · rw [if_neg hraw] at h
      refine ⟨hraw, ?_⟩
      cases hl : loads raw with
      | none => rfl
      | some j =>
        rw [hl] at h
        cases j <;> simp_all

/-! ## Claims C2 and C6: path-parameter inference -/

theorem hpp_foldl_char (plen : Nat) (l : List (Nat × String)) (u : String) (acc : List String) :
    List.foldl (hppStep plen) (u, acc) l =
      ((l.filter (fun p => isDynamicSegment p.2)).foldl
        (fun s p => pyReplace s p.2 ("$" ++ dynName plen p.1)) u,
       acc ++ (l.filter (fun p => isDynamicSegment p.2)).map
        (fun p => lccD (dynName plen p.1))) := by
  induction l generalizing u acc with
  | nil => simp
  | cons p l ih =>
    cases hdyn : isDynamicSegment p.2 with
    | true =>
      have hstep : hppStep plen (u, acc) p =
          (pyReplace u p.2 ("$" ++ dynName plen p.1), acc ++ [lccD (dynName plen p.1)]) := by
        by_cases h1 : matchesHex24 p.2 = true
        · simp [hppStep, h1]
        · have h1f : matchesHex24 p.2 = false := Bool.not_eq_true _ |>.mp h1
          have h2 : matchesDigits p.2 = true := by
            have hx := hdyn
            simp only [isDynamicSegment, h1f, Bool.false_or] at hx
            exact hx
          simp [hppStep, h1f, h2]
      rw [List.foldl_cons, hstep, ih]
      simp [List.filter_cons, hdyn]
    | false =>
      have hor := Bool.or_eq_false_iff.mp (by simpa [isDynamicSegment] using hdyn)
      have hstep : hppStep plen (u, acc) p = (u, acc) := by
        simp [hppStep, hor.1, hor.2]
      rw [List.foldl_cons, hstep, ih]
      simp [List.filter_cons, hdyn]

/-- Claim C6: a segment is classified as dynamic exactly when it fully
matches the 24-plus-character lowercase-hex pattern or the all-digits
pattern; a dynamic final segment is named id and an earlier one param-i; the
lowerCamelCase forms of those names are appended in segment order (the
returned list is the in-order image of the dynamic entries of the enumerated
path).  In particular a 24-hex-character final segment of a two-segment path
yields id, and a numeric segment at index 1 of a three-segment path yields
param1. -/
theorem C6_dynamic_segment_classification :
    (∀ (url : String) (path : List String),
      (handle_path_parameters url path).2 =
        (path.enum.filter (fun p => isDynamicSegment p.2)).map
          (fun p => lccD (if p.1 = path.length - 1 then "id" else "param" ++ toString p.1)))
    ∧ (handle_path_parameters "u/abcdefabcdefabcdefabcdef" ["u", "abcdefabcdefabcdefabcdef"]).2
        = ["id"]
    ∧ (handle_path_parameters "a/1/b" ["a", "1", "b"]).2 = ["param1"] := by
  refine ⟨?_, by decide, by decide⟩
  intro url path
  unfold handle_path_parameters
  rw [hpp_foldl_char]
  simp [dynName]

/-- Claim C2 (amended): `handle_path_parameters` is exactly a fold of global
text replacement over the dynamic entries of the enumerated path — a segment
matching neither pattern triggers no replacement and contributes no
parameter name, but each replacement substitutes every occurrence of the
dynamic segment text in the current URL, so URL portions outside the dynamic
segment do change whenever they contain that text as a substring. -/
theorem C2_replacement_frame :
    ∀ (url : String) (path : List String),
      handle_path_parameters url path =
        ((path.enum.filter (fun p => isDynamicSegment p.2)).foldl
          (fun s p => pyReplace s p.2 ("$" ++ dynName path.length p.1)) url,
         (path.enum.filter (fun p => isDynamicSegment p.2)).map
          (fun p => lccD (dynName path.length p.1))) := by
  intro url path
  unfold handle_path_parameters
  rw [hpp_foldl_char]
  simp

/-- Counterexample to C2 as stated: with path segments 1 and a1, the
non-dynamic segment a1 is not left character-for-character unchanged — the
global replacement of 1 also rewrites the 1 inside a1. -/
theorem C2_counterexample :
    handle_path_parameters "http://h/1/a1" ["1", "a1"]
      = ("http://h/$param0/a$param0", ["param0"])
    ∧ ("http://h/$param0/a$param0" : String) ≠ "http://h/$param0/a1" := by
  constructor <;> decide

/-! ## Claim C4: malformed body JSON is non-fatal and localized -/

theorem dioAssemble_printed (n : String) (req : Request) (p : List String) :
    dioAssemble n req ("", p)
      = (dioAssemble n req ("", [])).map (fun o => { o with printed := p }) := by
  unfold dioAssemble
  cases h : dioAssembleCore n req "" <;> simp [Except.map]

/-- Claim C4: for every non-empty body text on which JSON decoding fails,
`generate_body_class` reports the error and returns empty text, and
`generate_dio_function` on the same request behaves exactly as if the request
had no body at all (same function source with no body import, no body
parameter and no data argument; same folder, file and class texts), except
that the malformed-body report is printed. -/
theorem C4_malformed_body_nonfatal :
    (∀ (loads : String → Option PyJson) (raw cn : String),
      raw ≠ "" → loads raw = none →
      generate_body_class loads raw cn = .ok ("", ["Invalid JSON body"]))
    ∧ (∀ (loads : String → Option PyJson) (n : String) (req : Request) (raw : String),
      raw ≠ "" → loads raw = none →
      generate_dio_function loads n { req with body_raw := some raw }
        = (generate_dio_function loads n { req with body_raw := none }).map
            (fun o => { o with printed := ["Invalid JSON body"] })) := by
  have hbc : ∀ (loads : String → Option PyJson) (raw cn : String),
      raw ≠ "" → loads raw = none →
      generate_body_class loads raw cn = .ok ("", ["Invalid JSON body"]) := by
    intro loads raw cn hraw hl
    unfold generate_body_class
    rw [if_neg hraw, hl]
  refine ⟨hbc, ?_⟩
  intro loads n req raw hraw hl
  show (do
      let bodyRes ← bodyStep loads n (Request.body_raw { req with body_raw := some raw })
      dioAssemble n { req with body_raw := some raw } bodyRes)
    = _
  have hstep : bodyStep loads n (Request.body_raw { req with body_raw := some raw })
      = .ok ("", ["Invalid JSON body"]) := by
    have hred : bodyStep loads n (some raw)
        = if raw ≠ "" then generate_body_class loads raw (upper_camel_case (n ++ "_body"))
          else pure ("", []) := rfl
    show bodyStep loads n (some raw) = _
    rw [hred, if_pos hraw, hbc loads raw _ hraw hl]
  rw [hstep]
  show dioAssemble n { req with body_raw := some raw } ("", ["Invalid JSON body"]) = _
  have hcore : dioAssembleCore n { req with body_raw := some raw } ""
      = dioAssembleCore n { req with body_raw := none } "" := rfl
  have hrhs : generate_dio_function loads n { req with body_raw := none }
      = dioAssemble n { req with body_raw := none } ("", []) := by
    show (do
        let bodyRes ← bodyStep loads n (Request.body_raw { req with body_raw := none })
        dioAssemble n { req with body_raw := none } bodyRes) = _
    rfl
  rw [hrhs]
  unfold dioAssemble
  rw [hcore]
  cases h : dioAssembleCore n { req with body_raw := none } "" <;> simp [Except.map]

/-- Witness for C4: a concrete GET request with an unparseable body generates
exactly the code of the body-free request, with the report printed. -/
theorem C4_malformed_body_nonfatal_witness :
    ("bad json" : String) ≠ ""
    ∧ generate_dio_function (fun _ => none) "Ping"
        { method := "GET", url_raw := "u", url_path := [], url_query := [],
          header := [], body_raw := some "bad json", auth := none }
      = (generate_dio_function (fun _ => none) "Ping"
          { method := "GET", url_raw := "u", url_path := [], url_query := [],
            header := [], body_raw := none, auth := none }).map
          (fun o => { o with printed := ["Invalid JSON body"] }) :=
  ⟨by decide, C4_malformed_body_nonfatal.2 (fun _ => none) "Ping"
    { method := "GET", url_raw := "u", url_path := [], url_query := [],
      header := [], body_raw := some "bad json", auth := none } "bad json"
    (by decide) rfl⟩

/-! ## Structural lemmas about splitting and titling -/

theorem pySplitAux_words_ne_nil :
    ∀ (l cur : List Char), ∀ w ∈ pySplitAux cur l, w ≠ [] := by
  intro l
  induction l with
  | nil =>
    intro cur w hw
    by_cases hc : cur = []
    · simp [pySplitAux, hc] at hw
    · simp only [pySplitAux, if_neg hc, List.mem_singleton] at hw
      subst hw
      simpa using hc
  | cons c cs ih =>
    intro cur w hw
    by_cases hs : pyIsSpace c = true
    · by_cases hc : cur = []
      · rw [pySplitAux, if_pos hs, if_pos hc] at hw
        exact ih [] w hw
      · rw [pySplitAux, if_pos hs, if_neg hc] at hw
        rcases List.mem_cons.mp hw with h | h
        · subst h; simpa using hc
        · exact ih [] w h
    · rw [pySplitAux, if_neg hs] at hw
      exact ih (c :: cur) w hw

theorem pySplitAux_ne_nil_of_cur :
    ∀ (l cur : List Char), cur ≠ [] → pySplitAux cur l ≠ [] := by
  intro l
  induction l with
  | nil =>
    intro cur hc
    simp [pySplitAux, hc]
  | cons c cs ih =>
    intro cur hc
    by_cases hs : pyIsSpace c = true
    · rw [pySplitAux, if_pos hs, if_neg hc]
      simp
    · rw [pySplitAux, if_neg hs]
      exact ih (c :: cur) (by simp)

theorem pySplitAux_ne_nil :
    ∀ (l cur : List Char), (∃ c ∈ l, pyIsSpace c = false) → pySplitAux cur l ≠ [] := by
  intro l
  induction l with
  | nil =>
    intro cur h
    obtain ⟨c, hc, _⟩ := h
    simp at hc
  | cons c cs ih =>
    intro cur h
    obtain ⟨d, hd, hds⟩ := h
    by_cases hs : pyIsSpace c = true
    · have hdcs : d ∈ cs := by
        rcases List.mem_cons.mp hd with h | h
        · subst h; rw [hs] at hds; exact absurd hds (by simp)
        · exact h
      by_cases hc : cur = []
      · rw [pySplitAux, if_pos hs, if_pos hc]
        exact ih [] ⟨d, hdcs, hds⟩
      · rw [pySplitAux, if_pos hs, if_neg hc]
        simp
    · rw [pySplitAux, if_neg hs]
      exact pySplitAux_ne_nil_of_cur cs (c :: cur) (by simp)

theorem pySplitAux_mem_chars (P : Char → Prop) :
    ∀ (l cur : List Char), (∀ d ∈ cur, P d) → (∀ d ∈ l, pyIsSpace d = false → P d) →
      ∀ w ∈ pySplitAux cur l, ∀ c ∈ w, P c := by
  intro l
  induction l with
  | nil =>
    intro cur hcur _ w hw c hc
    by_cases hcn : cur = []
    · simp [pySplitAux, hcn] at hw
    · simp only [pySplitAux, if_neg hcn, List.mem_singleton] at hw
      subst hw
      exact hcur c (List.mem_reverse.mp hc)
  | cons a cs ih =>
    intro cur hcur hl w hw c hc
    by_cases hs : pyIsSpace a = true
    · have hl2 : ∀ d ∈ cs, pyIsSpace d = false → P d := fun d hd => hl d (List.mem_cons_of_mem a hd)
      by_cases hcn : cur = []
      · rw [pySplitAux, if_pos hs, if_pos hcn] at hw
        exact ih [] (by simp) hl2 w hw c hc
      · rw [pySplitAux, if_pos hs, if_neg hcn] at hw
        rcases List.mem_cons.mp hw with h | h
        · subst h
          exact hcur c (List.mem_reverse.mp hc)
        · exact ih [] (by simp) hl2 w h c hc
    · rw [pySplitAux, if_neg hs] at hw
      have hcur2 : ∀ d ∈ a :: cur, P d := by
        intro d hd
        rcases List.mem_cons.mp hd with h | h
        · exact h ▸ hl a (List.mem_cons_self a cs) (Bool.not_eq_true _ |>.mp hs)
        · exact hcur d h
      have hl2 : ∀ d ∈ cs, pyIsSpace d = false → P d := fun d hd => hl d (List.mem_cons_of_mem a hd)
      exact ih (a :: cur) hcur2 hl2 w hw c hc

theorem pySplitAux_no_space :
    ∀ (l cur : List Char), (∀ c ∈ l, pyIsSpace c = false) → cur ≠ [] ∨ l ≠ [] →
      pySplitAux cur l = [cur.reverse ++ l] := by
  intro l
  induction l with
  | nil =>
    intro cur _ hor
    have hc : cur ≠ [] := by
      rcases hor with h | h
      · exact h
      · simp at h
    simp [pySplitAux, hc]
  | cons a cs ih =>
    intro cur hl _
    have hs : pyIsSpace a = false := hl a (List.mem_cons_self a cs)
    rw [pySplitAux, if_neg (by simp [hs])]
    rw [ih (a :: cur) (fun d hd => hl d (List.mem_cons_of_mem a hd)) (Or.inl (by simp))]
    simp

theorem titleAux_ne_nil (b : Bool) (l : List Char) (h : l ≠ []) : titleAux b l ≠ [] := by
  cases l with
  | nil => simp at h
  | cons c cs =>
    rw [titleAux]
    by_cases ha : isAsciiAlpha c = true
    · rw [if_pos ha]; simp
    · rw [if_neg ha]; simp

theorem titleAux_mem (b : Bool) (l : List Char) :
    ∀ c ∈ titleAux b l, ∃ d ∈ l, c = pyToLower d ∨ c = pyToUpper d ∨ c = d := by
  induction l generalizing b with
  | nil => simp [titleAux]
  | cons a cs ih =>
    intro c hc
    rw [titleAux] at hc
    by_cases ha : isAsciiAlpha a = true
    · rw [if_pos ha] at hc
      rcases List.mem_cons.mp hc with h | h
      · refine ⟨a, List.mem_cons_self a cs, ?_⟩
        by_cases hb : b = true
        · rw [hb] at h; simp at h; exact Or.inl h
        · rw [Bool.not_eq_true] at hb; rw [hb] at h; simp at h; exact Or.inr (Or.inl h)
      · obtain ⟨d, hd, hor⟩ := ih true c h
        exact ⟨d, List.mem_cons_of_mem a hd, hor⟩
    · rw [if_neg ha] at hc
      rcases List.mem_cons.mp hc with h | h
      · exact ⟨a, List.mem_cons_self a cs, Or.inr (Or.inr h)⟩
      · obtain ⟨d, hd, hor⟩ := ih false c h
        exact ⟨d, List.mem_cons_of_mem a hd, hor⟩

theorem titleAux_idem : ∀ (l : List Char) (b : Bool), titleAux b (titleAux b l) = titleAux b l := by
  intro l
  induction l with
  | nil => intro b; rfl
  | cons a cs ih =>
    intro b
    by_cases ha : isAsciiAlpha a = true
    · rw [titleAux, if_pos ha]
      by_cases hb : b = true
      · subst hb
        rw [if_pos rfl]
        rw [titleAux, if_pos (by rw [isAsciiAlpha_pyToLower]; exact ha), if_pos rfl,
          pyToLower_pyToLower, ih true]
      · rw [Bool.not_eq_true] at hb
        subst hb
        rw [if_neg (by simp)]
        rw [titleAux, if_pos (by rw [isAsciiAlpha_pyToUpper]; exact ha), if_neg (by simp),
          pyToUpper_pyToUpper, ih true]
    · rw [titleAux, if_neg ha, titleAux, if_neg ha, ih false]

theorem titleAux_lowerFirst :
    ∀ l : List Char, titleAux false (lowerFirst (titleAux false l)) = titleAux false l := by
  intro l
  cases l with
  | nil => rfl
  | cons a cs =>
    by_cases ha : isAsciiAlpha a = true
    · rw [titleAux, if_pos ha, if_neg (by simp)]
      rw [lowerFirst, titleAux,
        if_pos (by rw [isAsciiAlpha_pyToLower, isAsciiAlpha_pyToUpper]; exact ha),
        if_neg (by simp), pyToUpper_pyToLower_pyToUpper, titleAux_idem]
    · rw [titleAux, if_neg ha]
      have hnl : isAsciiUpper a = false := by
        rcases hu : isAsciiUpper a with hh | hh
        · rfl
        · exact absurd (by simp [isAsciiAlpha, hu]) ha
      rw [lowerFirst, pyToLower_of_not_upper hnl, titleAux, if_neg ha, titleAux_idem]

/-- Requests whose name is empty or has a non-whitespace character are the
ones on which `lower_camel_case` cannot raise. -/
theorem lcc_some_of (N : String) (h : N = "" ∨ ∃ c ∈ N.data, pyIsSpace c = false) :
    ∃ fn, lower_camel_case N = some fn := by
  rcases h with rfl | ⟨c, hc, hcs⟩
  · exact ⟨"", rfl⟩
  · by_cases hd : N.data = []
    · rw [hd] at hc
      simp at hc
    · have hflat : ((pySplit N.data).map pyTitle).flatten ≠ [] := by
        intro hnil
        obtain ⟨w0, hw0⟩ : ∃ w0, w0 ∈ pySplit N.data := by
          cases hsp : pySplit N.data with
          | nil => exact absurd hsp (pySplitAux_ne_nil _ _ ⟨c, hc, hcs⟩)
          | cons a l => exact ⟨a, hsp ▸ List.mem_cons_self a l⟩
        have h1 : pyTitle w0 ∈ (pySplit N.data).map pyTitle := List.mem_map_of_mem _ hw0
        have h2 : pyTitle w0 = [] := by
          have := List.flatten_eq_nil_iff.mp hnil
          exact this _ h1
        exact titleAux_ne_nil false w0 (pySplitAux_words_ne_nil _ _ _ hw0) h2
      unfold lower_camel_case
      rw [if_neg hd]
      cases hm : ((pySplit N.data).map pyTitle).flatten with
      | nil => exact absurd hm hflat
      | cons a l =>
        exact ⟨String.mk ((pyToLower a :: l).filter (fun d => d ≠ '_')), rfl⟩

/-! ## Claim C1: end-to-end generation for the single GET request -/

theorem c1_gen_eval (N fn : String) (hfn : lower_camel_case N = some fn) :
    dioAssembleCore N req123 ""
      = .ok ⟨c1code N fn, snake_case N, snake_case N ++ ".dart", "", "", []⟩ := by
  unfold dioAssembleCore
  rw [show exceptOfOption "IndexError" (lower_camel_case N) = Except.ok fn by rw [hfn]; rfl]
  rfl

/-- Claim C1 (amended): for every request name that is empty or contains a
non-whitespace character, the one-request collection around `req123`
generates a function whose HTTP call is a get on `$baseUrl/users/$id`, whose
parameter list is exactly `required String id, required String baseUrl`, and
the walker performs exactly one write: the single function file inside the
folder named by the snake_case of the request name.  (Whitespace-only
non-empty names instead crash `lower_camel_case`, see the counterexample.) -/
theorem C1_end_to_end :
    ∀ (loads : String → Option PyJson) (out N : String),
      (N = "" ∨ ∃ c ∈ N.data, pyIsSpace c = false) →
      ∃ fn, lower_camel_case N = some fn ∧
        process_postman_collection loads [PMItem.leaf N req123] out
          = .ok [⟨pjoin out (snake_case N), snake_case N ++ ".dart", c1code N fn⟩] := by
  intro loads out N h
  obtain ⟨fn, hfn⟩ := lcc_some_of N h
  refine ⟨fn, hfn, ?_⟩
  have h1 : generate_dio_function loads N req123
      = .ok ⟨c1code N fn, snake_case N, snake_case N ++ ".dart", "", "", []⟩ := by
    show (do
        let bodyRes ← bodyStep loads N req123.body_raw
        dioAssemble N req123 bodyRes) = _
    have hb : bodyStep loads N req123.body_raw = .ok ("", []) := rfl
    rw [hb]
    show dioAssemble N req123 ("", []) = _
    have hda : dioAssemble N req123 ("", ([] : List String))
        = (dioAssembleCore N req123 "").map
            (fun o : DioOut => { o with printed := ([] : List String) }) := rfl
    rw [hda, c1_gen_eval N fn hfn]
    rfl
  have h2 : request_files loads N req123 out
      = .ok [⟨pjoin out (snake_case N), snake_case N ++ ".dart", c1code N fn⟩] := by
    show (do
        let o ← generate_dio_function loads N req123
        let request_folder := pjoin out o.folder
        pure (([⟨request_folder, o.filename, o.code⟩] : List FsWrite)
          ++ (if o.query_class ≠ "" then
                ([⟨request_folder, o.folder ++ "_query_params.dart", o.query_class⟩] : List FsWrite)
              else [])
          ++ (if o.body_class ≠ "" then
                ([⟨request_folder, o.folder ++ "_body.dart", o.body_class⟩] : List FsWrite)
              else []))) = _
    rw [h1]
    rfl
  show (do
      let w ← processItem1 loads out (PMItem.leaf N req123)
      let ws ← exceptFlatMap (processItem1 loads out) []
      pure (w ++ ws)) = _
  have h3 : processItem1 loads out (PMItem.leaf N req123) = request_files loads N req123 out := rfl
  rw [h3, h2]
  rfl

/-- Witness for C1 at the request name Get User. -/
theorem C1_end_to_end_witness :
    ∃ fn, lower_camel_case "Get User" = some fn ∧
      process_postman_collection (fun _ => none) [PMItem.leaf "Get User" req123] "out"
        = .ok [⟨pjoin "out" (snake_case "Get User"), snake_case "Get User" ++ ".dart",
            c1code "Get User" fn⟩] :=
  C1_end_to_end (fun _ => none) "out" "Get User" (Or.inr ⟨'G', by decide, by decide⟩)

set_option maxRecDepth 10000 in
/-- Counterexample to C1 as stated: the whitespace-only request name makes
`lower_camel_case` raise an uncaught IndexError inside
`generate_dio_function`, so the run aborts and nothing is written. -/
theorem C1_whitespace_name_counterexample :
    process_postman_collection (fun _ => none) [PMItem.leaf " " req123] "out"
      = .error "IndexError" := by
  rfl

/-! ## Claim C9: the walker visits exactly the depth-1..3 leaves -/

theorem exceptFlatMap_singleton {α : Type} (f : α → Except String (List FsWrite)) (x : α) :
    exceptFlatMap f [x] = f x := by
  show (do
      let w ← f x
      let ws ← exceptFlatMap f ([] : List α)
      pure (w ++ ws)) = f x
  cases h : f x with
  | error e => rfl
  | ok w =>
    show Except.ok (w ++ []) = Except.ok w
    rw [List.append_nil]

theorem exceptFlatMap_append {α : Type} (f : α → Except String (List FsWrite)) (l1 l2 : List α) :
    exceptFlatMap f (l1 ++ l2) = (do
      let w ← exceptFlatMap f l1
      let ws ← exceptFlatMap f l2
      pure (w ++ ws)) := by
  induction l1 with
  | nil =>
    rw [List.nil_append]
    cases h : exceptFlatMap f l2 with
    | error e => rfl
    | ok w => rfl
  | cons x xs ih =>
    show (do
        let w ← f x
        let ws ← exceptFlatMap f (xs ++ l2)
        pure (w ++ ws))
      = (do
        let w ← (do
          let w1 ← f x
          let ws1 ← exceptFlatMap f xs
          pure (w1 ++ ws1))
        let ws ← exceptFlatMap f l2
        pure (w ++ ws))
    rw [ih]
    cases hx : f x with
    | error e => rfl
    | ok w =>
      cases h1 : exceptFlatMap f xs with
      | error e => rfl
      | ok w1 =>
        cases h2 : exceptFlatMap f l2 with
        | error e => rfl
        | ok w2 =>
          show Except.ok (w ++ (w1 ++ w2)) = Except.ok ((w ++ w1) ++ w2)
          rw [List.append_assoc]

theorem exceptFlatMap_level {α β : Type} (f : α → Except String (List FsWrite))
    (g : β → Except String (List FsWrite)) (lv : α → List β) (ok : α → Bool) :
    ∀ (its : List α),
      (∀ it ∈ its, ok it = true → f it = exceptFlatMap g (lv it)) →
      its.all ok = true →
      exceptFlatMap f its = exceptFlatMap g ((its.map lv).flatten) := by
  intro its
  induction its with
  | nil => intro _ _; rfl
  | cons it rest ih =>
    intro hf hok
    rw [List.all_cons, Bool.and_eq_true] at hok
    show (do
        let w ← f it
        let ws ← exceptFlatMap f rest
        pure (w ++ ws)) = exceptFlatMap g (((it :: rest).map lv).flatten)
    rw [show (((it :: rest).map lv).flatten) = lv it ++ ((rest.map lv).flatten) by simp]
    rw [exceptFlatMap_append]
    rw [hf it (List.mem_cons_self it rest) hok.1]
    rw [ih (fun x hx => hf x (List.mem_cons_of_mem it hx)) hok.2]

theorem exceptFlatMap_ok_all {α : Type} (f : α → Except String (List FsWrite)) (ok : α → Bool) :
    ∀ (its : List α) (ws : List FsWrite),
      (∀ it ∈ its, ∀ w, f it = .ok w → ok it = true) →
      exceptFlatMap f its = .ok ws → its.all ok = true := by
  intro its
  induction its with
  | nil => intro ws _ _; rfl
  | cons it rest ih =>
    intro ws hf hok
    rw [show exceptFlatMap f (it :: rest) = (do
        let w ← f it
        let ws ← exceptFlatMap f rest
        pure (w ++ ws)) from rfl] at hok
    cases hx : f it with
    | error e => rw [hx] at hok; exact absurd hok (by simp [bind, Except.bind])
    | ok w =>
      rw [hx] at hok
      cases hr : exceptFlatMap f rest with
      | error e => rw [hr] at hok; exact absurd hok (by simp [bind, Except.bind])
      | ok w1 =>
        rw [List.all_cons, Bool.and_eq_true]
        exact ⟨hf it (List.mem_cons_self it rest) w hx,
          ih w1 (fun x hx2 => hf x (List.mem_cons_of_mem it hx2)) hr⟩

theorem process3_char (loads : String → Option PyJson) (out : String) :
    ∀ it, okItemD3 it = true →
      processItem3 loads out it
        = exceptFlatMap (fun p => request_files loads p.1 p.2 out) (leavesD3only it) := by
  intro it hok
  cases it with
  | leaf n r =>
    rw [leavesD3only, exceptFlatMap_singleton]
    rfl
  | folder n its => simp [okItemD3] at hok

theorem process2_char (loads : String → Option PyJson) (out : String) :
    ∀ it, okItemD2 it = true →
      processItem2 loads out it
        = exceptFlatMap (fun p => request_files loads p.1 p.2 out) (leavesD2 it) := by
  intro it hok
  cases it with
  | leaf n r =>
    rw [leavesD2, exceptFlatMap_singleton]
    rfl
  | folder n its =>
    rw [processItem2, leavesD2]
    exact exceptFlatMap_level _ _ leavesD3only okItemD3 its
      (fun it2 _ h => process3_char loads out it2 h) (by simpa [okItemD2] using hok)

theorem process1_char (loads : String → Option PyJson) (out : String) :
    ∀ it, okDepth3Item it = true →
      processItem1 loads out it
        = exceptFlatMap (fun p => request_files loads p.1 p.2 out) (leavesOfItem it) := by
  intro it hok
  cases it with
  | leaf n r =>
    rw [leavesOfItem, exceptFlatMap_singleton]
    rfl
  | folder n its =>
    rw [processItem1, leavesOfItem]
    exact exceptFlatMap_level _ _ leavesD2 okItemD2 its
      (fun it2 _ h => process2_char loads out it2 h) (by simpa [okDepth3Item] using hok)

theorem process3_ok (loads : String → Option PyJson) (out : String) :
    ∀ it, ∀ w, processItem3 loads out it = .ok w → okItemD3 it = true := by
  intro it w h
  cases it with
  | leaf n r => rfl
  | folder n its => simp [processItem3] at h

theorem process2_ok (loads : String → Option PyJson) (out : String) :
    ∀ it, ∀ w, processItem2 loads out it = .ok w → okItemD2 it = true := by
  intro it w h
  cases it with
  | leaf n r => rfl
  | folder n its =>
    rw [processItem2] at h
    rw [okItemD2]
    exact exceptFlatMap_ok_all _ okItemD3 its w
      (fun it2 _ w2 h2 => process3_ok loads out it2 w2 h2) h

theorem process1_ok (loads : String → Option PyJson) (out : String) :
    ∀ it, ∀ w, processItem1 loads out it = .ok w → okDepth3Item it = true := by
  intro it w h
  cases it with
  | leaf n r => rfl
  | folder n its =>
    rw [processItem1] at h
    rw [okDepth3Item]
    exact exceptFlatMap_ok_all _ okItemD2 its w
      (fun it2 _ w2 h2 => process2_ok loads out it2 w2 h2) h

/-- Claim C9: when every depth-3 item of the collection is a leaf, processing
performs exactly one generation per leaf request of depths one to three, in
traversal order (the writes are the concatenation over `leavesDepth3`); and
whenever some depth-3 item is itself a folder, processing can never return
normally — it aborts with an uncaught error (a `KeyError` on the missing
`request` key, since the walker treats depth-3 items as leaves instead of
recursing or skipping). -/
theorem C9_walker_depth :
    (∀ (loads : String → Option PyJson) (out : String) (items : List PMItem),
      okDepth3 items = true →
      process_postman_collection loads items out
        = exceptFlatMap (fun p => request_files loads p.1 p.2 out) (leavesDepth3 items))
    ∧ (∀ (loads : String → Option PyJson) (out : String) (items : List PMItem)
        (ws : List FsWrite),
      process_postman_collection loads items out = .ok ws → okDepth3 items = true) := by
  constructor
  · intro loads out items hok
    rw [process_postman_collection, leavesDepth3]
    exact exceptFlatMap_level _ _ leavesOfItem okDepth3Item items
      (fun it _ h => process1_char loads out it h) hok
  · intro loads out items ws h
    rw [process_postman_collection] at h
    exact exceptFlatMap_ok_all _ okDepth3Item items ws
      (fun it _ w2 h2 => process1_ok loads out it w2 h2) h

/-- Witness for C9: a three-level collection with leaves at depths 1 and 3. -/
theorem C9_walker_depth_witness :
    okDepth3 [PMItem.folder "F" [PMItem.folder "G" [PMItem.leaf "A" req123]],
      PMItem.leaf "B" req123] = true
    ∧ process_postman_collection (fun _ => none)
        [PMItem.folder "F" [PMItem.folder "G" [PMItem.leaf "A" req123]],
          PMItem.leaf "B" req123] "out"
      = exceptFlatMap (fun p => request_files (fun _ => none) p.1 p.2 "out")
          (leavesDepth3 [PMItem.folder "F" [PMItem.folder "G" [PMItem.leaf "A" req123]],
            PMItem.leaf "B" req123]) :=
  ⟨by decide, C9_walker_depth.1 (fun _ => none) "out"
    [PMItem.folder "F" [PMItem.folder "G" [PMItem.leaf "A" req123]],
      PMItem.leaf "B" req123] (by decide)⟩

/-! ## Claim C7: shape of snake_case output -/

theorem subRunsAux_chars :
    ∀ (l : List Char) (b : Bool), ∀ c ∈ subRunsAux b l, isAsciiAlnum c = true ∨ c = ' ' := by
  intro l
  induction l with
  | nil => intro b c hc; simp [subRunsAux] at hc
  | cons a cs ih =>
    intro b c hc
    rw [subRunsAux] at hc
    by_cases ha : isAsciiAlnum a = true
    · rw [if_pos ha] at hc
      rcases List.mem_cons.mp hc with h | h
      · exact Or.inl (h ▸ ha)
      · exact ih false c h
    · rw [if_neg ha] at hc
      by_cases hb : b = true
      · rw [if_pos hb] at hc
        exact ih true c hc
      · rw [if_neg hb] at hc
        rcases List.mem_cons.mp hc with h | h
        · exact Or.inr h
        · exact ih true c h

theorem subRunsAux_mem_alnum :
    ∀ (l : List Char) (b : Bool) (c : Char), c ∈ l → isAsciiAlnum c = true →
      c ∈ subRunsAux b l := by
  intro l
  induction l with
  | nil => intro b c hc _; simp at hc
  | cons a cs ih =>
    intro b c hc hal
    rw [subRunsAux]
    rcases List.mem_cons.mp hc with h | h
    · rw [if_pos (h ▸ hal)]
      exact h ▸ List.mem_cons_self a _
    · by_cases ha : isAsciiAlnum a = true
      · rw [if_pos ha]
        exact List.mem_cons_of_mem a (ih false c h hal)
      · rw [if_neg ha]
        by_cases hb : b = true
        · rw [if_pos hb]
          exact ih true c h hal
        · rw [if_neg hb]
          exact List.mem_cons_of_mem ' ' (ih true c h hal)

theorem joinUnderscore_ne_nil :
    ∀ (ws : List (List Char)), ws ≠ [] → (∀ w ∈ ws, w ≠ []) → joinUnderscore ws ≠ [] := by
  intro ws
  cases ws with
  | nil => intro h _; simp at h
  | cons w ws2 =>
    intro _ hw
    cases ws2 with
    | nil =>
      show w ≠ []
      exact hw w (List.mem_cons_self w _)
    | cons w2 rest =>
      show w ++ '_' :: joinUnderscore (w2 :: rest) ≠ []
      simp

theorem joinUnderscore_chars (P : Char → Prop) :
    ∀ (ws : List (List Char)), (∀ w ∈ ws, ∀ c ∈ w, P c) →
      ∀ c ∈ joinUnderscore ws, P c ∨ c = '_' := by
  intro ws
  induction ws with
  | nil => intro _ c hc; simp [joinUnderscore] at hc
  | cons w ws2 ih =>
    intro hw c hc
    cases ws2 with
    | nil =>
      exact Or.inl (hw w (List.mem_cons_self w _) c hc)
    | cons w2 rest =>
      rw [show joinUnderscore (w :: w2 :: rest) = w ++ '_' :: joinUnderscore (w2 :: rest)
        from rfl] at hc
      rcases List.mem_append.mp hc with h | h
      · exact Or.inl (hw w (List.mem_cons_self w _) c h)
      · rcases List.mem_cons.mp h with h2 | h2
        · exact Or.inr h2
        · exact ih (fun x hx => hw x (List.mem_cons_of_mem w hx)) c h2

theorem noDU_of_all_ne :
    ∀ (l : List Char), (∀ c ∈ l, c ≠ '_') → noDoubleUnderscore l = true := by
  intro l
  induction l with
  | nil => intro _; rfl
  | cons a t ih =>
    intro h
    cases t with
    | nil => rfl
    | cons b t2 =>
      show (!(a = '_' && b = '_') && noDoubleUnderscore (b :: t2)) = true
      rw [Bool.and_eq_true]
      constructor
      · have ha : a ≠ '_' := h a (List.mem_cons_self a _)
        simp [ha]
      · exact ih (fun c hc => h c (List.mem_cons_of_mem a hc))

theorem noDU_append :
    ∀ (w rest : List Char), (∀ c ∈ w, c ≠ '_') →
      noDoubleUnderscore ('_' :: rest) = true →
      noDoubleUnderscore (w ++ '_' :: rest) = true := by
  intro w
  induction w with
  | nil => intro rest _ h; exact h
  | cons a w2 ih =>
    intro rest h hrest
    cases w2 with
    | nil =>
      show (!(a = '_' && '_' = '_') && noDoubleUnderscore ('_' :: rest)) = true
      rw [Bool.and_eq_true]
      have ha : a ≠ '_' := h a (List.mem_cons_self a _)
      exact ⟨by simp [ha], hrest⟩
    | cons b w3 =>
      show (!(a = '_' && b = '_') && noDoubleUnderscore ((b :: w3) ++ '_' :: rest)) = true
      rw [Bool.and_eq_true]
      have ha : a ≠ '_' := h a (List.mem_cons_self a _)
      refine ⟨by simp [ha], ?_⟩
      exact ih rest (fun c hc => h c (List.mem_cons_of_mem a hc)) hrest

theorem joinUnderscore_shape :
    ∀ (ws : List (List Char)), (∀ w ∈ ws, w ≠ [] ∧ ∀ c ∈ w, c ≠ '_') →
      noDoubleUnderscore (joinUnderscore ws) = true
      ∧ (joinUnderscore ws).head? ≠ some '_'
      ∧ (joinUnderscore ws).getLast? ≠ some '_' := by
  intro ws
  induction ws with
  | nil => intro _; refine ⟨rfl, by simp [joinUnderscore], by simp [joinUnderscore]⟩
  | cons w ws2 ih =>
    intro hw
    obtain ⟨hwne, hwch⟩ := hw w (List.mem_cons_self w _)
    cases ws2 with
    | nil =>
      refine ⟨noDU_of_all_ne w hwch, ?_, ?_⟩
      · show w.head? ≠ some '_'
        cases w with
        | nil => simp
        | cons a t =>
          simp only [List.head?_cons, Ne, Option.some.injEq]
          exact hwch a (List.mem_cons_self a _)
      · show w.getLast? ≠ some '_'
        cases hwl : w.getLast? with
        | none => simp
        | some a =>
          simp only [Ne, Option.some.injEq]
          intro he
          exact hwch a (List.mem_of_mem_getLast? hwl) he
    | cons w2 rest =>
      have hrest := ih (fun x hx => hw x (List.mem_cons_of_mem w hx))
      have hjne : joinUnderscore (w2 :: rest) ≠ [] :=
        joinUnderscore_ne_nil _ (by simp) (fun x hx => (hw x (List.mem_cons_of_mem w hx)).1)
      have hjoin : joinUnderscore (w :: w2 :: rest) = w ++ '_' :: joinUnderscore (w2 :: rest) := rfl
      rw [hjoin]
      refine ⟨?_, ?_, ?_⟩
      · apply noDU_append _ _ hwch
        cases hj : joinUnderscore (w2 :: rest) with
        | nil => exact absurd hj hjne
        | cons b t =>
          show (!('_' = '_' && b = '_') && noDoubleUnderscore (b :: t)) = true
          rw [Bool.and_eq_true]
          have hb : b ≠ '_' := by
            have := hrest.2.1
            rw [hj] at this
            simpa using this
          exact ⟨by simp [hb], hj ▸ hrest.1⟩
      · rw [List.head?_append]
        cases w with
        | nil => simp at hwne
        | cons a t =>
          simp only [List.head?_cons, Option.or_some, Ne, Option.some.injEq]
          exact hwch a (List.mem_cons_self a _)
      · rw [List.getLast?_append]
        have h1 : ('_' :: joinUnderscore (w2 :: rest)).getLast? ≠ some '_' := by
          cases hj : joinUnderscore (w2 :: rest) with
          | nil => exact absurd hj hjne
          | cons b t =>
            rw [List.getLast?_cons_cons]
            have := hrest.2.2
            rw [hj] at this
            exact this
        cases hl : ('_' :: joinUnderscore (w2 :: rest)).getLast? with
        | none =>
          simp at hl
        | some a =>
          rw [show (some a).or w.getLast? = some a from rfl]
          rw [hl] at h1
          exact h1

/-- Claim C7: `snake_case` output consists only of lowercase letters, digits
and underscores, never contains two consecutive underscores, has no leading
or trailing underscore (in particular whenever the input has an alphanumeric
character), and the empty input yields the empty output. -/
theorem C7_snake_case_shape :
    ∀ s : String,
      ((snake_case s).data.all (fun c => isAsciiLower c || isAsciiDigit c || c = '_')) = true
      ∧ noDoubleUnderscore (snake_case s).data = true
      ∧ ((∃ c ∈ s.data, isAsciiAlnum c = true) →
          (snake_case s).data.head? ≠ some '_' ∧ (snake_case s).data.getLast? ≠ some '_')
      ∧ (s = "" → snake_case s = "") := by
  intro s
  have hdata : (snake_case s).data
      = joinUnderscore (pySplit ((subRuns s.data).map pyToLower)) := rfl
  have hwne : ∀ w ∈ pySplit ((subRuns s.data).map pyToLower), w ≠ [] :=
    pySplitAux_words_ne_nil _ []
  have hwch : ∀ w ∈ pySplit ((subRuns s.data).map pyToLower), ∀ c ∈ w,
      (isAsciiLower c || isAsciiDigit c) = true := by
    apply pySplitAux_mem_chars (fun c => (isAsciiLower c || isAsciiDigit c) = true)
    · simp
    · intro d hd hds
      obtain ⟨e, he, rfl⟩ := List.mem_map.mp hd
      rcases subRunsAux_chars s.data false e he with h | h
      · exact lower_or_digit_pyToLower_of_alnum h
      · subst h
        exact absurd hds (by decide)
  have hw_ne_us : ∀ w ∈ pySplit ((subRuns s.data).map pyToLower),
      w ≠ [] ∧ ∀ c ∈ w, c ≠ '_' := by
    intro w hw
    refine ⟨hwne w hw, fun c hc he => ?_⟩
    have := hwch w hw c hc
    subst he
    exact absurd this (by decide)
  have hshape := joinUnderscore_shape _ hw_ne_us
  refine ⟨?_, ?_, ?_, ?_⟩
  · rw [List.all_eq_true]
    intro c hc
    rw [hdata] at hc
    rcases joinUnderscore_chars (fun c => (isAsciiLower c || isAsciiDigit c) = true)
        _ hwch c hc with h | h
    · simp [Bool.or_eq_true_iff.mp h]
    · subst h
      simp
  · rw [hdata]
    exact hshape.1
  · intro _
    rw [hdata]
    exact ⟨hshape.2.1, hshape.2.2⟩
  · intro hs
    subst hs
    rfl

/-- Witness for C7 at the input Hello World. -/
theorem C7_snake_case_shape_witness :
    (∃ c ∈ ("Hello World!" : String).data, isAsciiAlnum c = true)
    ∧ ((snake_case "Hello World!").data.head? ≠ some '_'
        ∧ (snake_case "Hello World!").data.getLast? ≠ some '_') :=
  ⟨⟨'H', by decide, by decide⟩,
    (C7_snake_case_shape "Hello World!").2.2.1 ⟨'H', by decide, by decide⟩⟩

/-! ## Claim C8: lower_camel_case and repeated application -/

/-- Claim C8 (amended): `lower_camel_case` is idempotent on inputs without
whitespace and without underscores — on such an input it cannot raise, and
its output is a fixed point.  (On general input the claim fails: joining the
title-cased words erases the word boundaries, so a second application
lowercases the interior capitals — see the counterexample.) -/
theorem C8_idempotent_on_clean :
    ∀ x : String, (∀ c ∈ x.data, pyIsSpace c = false ∧ c ≠ '_') →
      ∃ y, lower_camel_case x = some y ∧ lower_camel_case y = some y := by
  intro x hx
  by_cases hnil : x.data = []
  · refine ⟨x, ?_, ?_⟩ <;> simp [lower_camel_case, hnil]
  · have hsplit : pySplit x.data = [x.data] := by
      have := pySplitAux_no_space x.data [] (fun c hc => (hx c hc).1) (Or.inr hnil)
      simpa using this
    have hflat : ((pySplit x.data).map pyTitle).flatten = titleAux false x.data := by
      rw [hsplit]
      simp [pyTitle]
    have htne : titleAux false x.data ≠ [] := titleAux_ne_nil false x.data hnil
    obtain ⟨c, cs, hccs⟩ : ∃ c cs, titleAux false x.data = c :: cs := by
      cases h : titleAux false x.data with
      | nil => exact absurd h htne
      | cons a l => exact ⟨a, l, rfl⟩
    have htch : ∀ d ∈ titleAux false x.data, pyIsSpace d = false ∧ d ≠ '_' := by
      intro d hd
      obtain ⟨e, he, hor⟩ := titleAux_mem false x.data d hd
      obtain ⟨hes, heu⟩ := hx e he
      rcases hor with rfl | rfl | rfl
      · exact ⟨not_space_pyToLower hes, pyToLower_ne_underscore heu⟩
      · exact ⟨not_space_pyToUpper hes, pyToUpper_ne_underscore heu⟩
      · exact ⟨hes, heu⟩
    have hc0 : pyIsSpace c = false ∧ c ≠ '_' := htch c (by rw [hccs]; exact List.mem_cons_self c cs)
    have hych : ∀ d ∈ pyToLower c :: cs, pyIsSpace d = false ∧ d ≠ '_' := by
      intro d hd
      rcases List.mem_cons.mp hd with rfl | hd2
      · exact ⟨not_space_pyToLower hc0.1, pyToLower_ne_underscore hc0.2⟩
      · exact htch d (by rw [hccs]; exact List.mem_cons_of_mem c hd2)
    have hfilter : (pyToLower c :: cs).filter (fun d => d ≠ '_') = pyToLower c :: cs :=
      List.filter_eq_self.mpr (fun d hd => by simpa using (hych d hd).2)
    have hlx : lower_camel_case x = some (String.mk (pyToLower c :: cs)) := by
      unfold lower_camel_case
      rw [if_neg hnil, hflat]
      rw [hccs]
      show some (String.mk ((pyToLower c :: cs).filter (fun d => d ≠ '_')))
        = some (String.mk (pyToLower c :: cs))
      rw [hfilter]
    have hylne : (pyToLower c :: cs) ≠ [] := by simp
    have hsplit2 : pySplit (pyToLower c :: cs) = [pyToLower c :: cs] := by
      have := pySplitAux_no_space (pyToLower c :: cs) [] (fun d hd => (hych d hd).1)
        (Or.inr hylne)
      simpa using this
    have hty : titleAux false (pyToLower c :: cs) = c :: cs := by
      have h2 := titleAux_lowerFirst x.data
      rw [hccs] at h2
      simp only [lowerFirst] at h2
      exact h2
    have hly : lower_camel_case (String.mk (pyToLower c :: cs))
        = some (String.mk (pyToLower c :: cs)) := by
      unfold lower_camel_case
      rw [if_neg (by simp)]
      rw [show ((pySplit (String.mk (pyToLower c :: cs)).data).map pyTitle).flatten
          = c :: cs by
        show ((pySplit (pyToLower c :: cs)).map pyTitle).flatten = c :: cs
        rw [hsplit2]
        simp [pyTitle, hty]]
      show some (String.mk ((pyToLower c :: cs).filter (fun d => d ≠ '_')))
        = some (String.mk (pyToLower c :: cs))
      rw [hfilter]
    exact ⟨String.mk (pyToLower c :: cs), hlx, hly⟩

/-- Witness for C8 at the already-camel-cased identifier getUser. -/
theorem C8_idempotent_on_clean_witness :
    ∃ y, lower_camel_case "getUser" = some y ∧ lower_camel_case y = some y :=
  C8_idempotent_on_clean "getUser" (by decide)

/-- Counterexample to C8 as stated: applying `lower_camel_case` twice to
foo-space-bar gives foobar, not the first result fooBar (joining the titled
words erases the word boundary, so the second application lowercases the B);
likewise the already-cased input fooBar is not returned unchanged. -/
theorem C8_counterexample :
    (lower_camel_case "foo bar").bind lower_camel_case ≠ lower_camel_case "foo bar"
    ∧ lower_camel_case "fooBar" = some "foobar" := by
  constructor <;> decide

/-- Witness for C10: a body text that decodes to a JSON array. -/
theorem C10_non_object_body_aborts_witness :
    ("[]" : String) ≠ ""
    ∧ generate_body_class (fun _ => some (PyJson.list [])) "[]" "B" = .error "AttributeError" :=
  ⟨by decide, C10_non_object_body_aborts.1 (fun _ => some (PyJson.list [])) "[]" "B"
    (PyJson.list []) (by decide) rfl rfl⟩
